import Mathlib

/-!
Verification development for the golog logging library.

Shallow embedding notes:
* Go strings / byte slices are modelled as `List Char` (the repository only
  manipulates ASCII bytes in the claims under study).
* `LogLevel` (a Go `int`) is modelled as `Int`.
* Effects (wall-clock time, `runtime.Caller`, pipes, the file system) are
  modelled as explicit environment/state values threaded through the
  functions; the formatted time strings produced by `time.Format` are opaque
  fields of the time value.
-/

namespace Golog

/-! ### Levels (log.go, `LogLevel` constants and the `levels` tag array) -/

def LevelDebug : Int := 0

def LevelInfo : Int := 1

def LevelWarn : Int := 2

def LevelError : Int := 3

def LevelCritical : Int := 4

def NormalDepth : Int := 2

def AsyncBuffer : Nat := 1000

def OutputBuffer : Nat := 10000

/-- `var levels = [...]string{"D","I","W","E","C"}` -/
def defaultLevels : List (List Char) := [['D'], ['I'], ['W'], ['E'], ['C']]

/-- Go array indexing `levels[level]` (claims only exercise levels 0..4). -/
def tagAt (tags : List (List Char)) (level : Int) : List Char :=
  tags.getD level.toNat []

/-! ### Header format scanner (log.go `setHeaderFormat`, regexp `%\([\w\:]+\)`)

`findPh` returns the leftmost match of the placeholder pattern as
(literal prefix, keyword characters between the parens, remainder after the
closing paren); `\w` in a Go regexp is `[0-9A-Za-z_]`. -/

def isWordColon (c : Char) : Bool :=
  ('a' ≤ c && c ≤ 'z') || ('A' ≤ c && c ≤ 'Z') || ('0' ≤ c && c ≤ '9') ||
    c = '_' || c = ':'

def findPh : List Char → Option (List Char × List Char × List Char)
  | [] => none
  | c :: cs =>
    let run := cs.tail.takeWhile isWordColon
    if c = '%' ∧ cs.head? = some '(' ∧ run ≠ [] ∧
        (cs.tail.drop run.length).head? = some ')' then
      some ([], run, (cs.tail.drop run.length).tail)
    else
      match findPh cs with
      | none => none
      | some (pre, kw, rest) => some (c :: pre, kw, rest)

inductive Tok where
  | lit : List Char → Tok
  | ph : List Char → Tok

deriving instance DecidableEq for Tok

/-- The segmentation loop of `setHeaderFormat`: literal spans between
placeholder matches become literal tokens (only when nonempty, mirroring
`if end > beg`), each match contributes its keyword.  Fuel is the string
length, which bounds the number of matches. -/
def tokenizeFuel : Nat → List Char → List Tok
  | 0, _ => []
  | fuel + 1, s =>
    match findPh s with
    | none => if s = [] then [] else [Tok.lit s]
    | some (pre, kw, rest) =>
      let tl := Tok.ph kw :: tokenizeFuel fuel rest
      if pre = [] then tl else Tok.lit pre :: tl

def tokenize (s : List Char) : List Tok := tokenizeFuel (s.length + 1) s

/-! ### Header sessions (log.go `headerSession` and the keyword switch) -/

inductive Session where
  | copy : List Char → Session
  | asctime : List Char → Session
  | filename : List Char → Session
  | function : List Char → Session
  | lineno : List Char → Session
  | levelno : List Char → Session

deriving instance DecidableEq for Session

/-- `secs := strings.Split(kw, ":"); secs[0]` -/
def keywordOf (kw : List Char) : List Char := (kw.splitOn ':').getD 0 []

/-- `name := secs[0]; if len(secs) > 1 { name = secs[1] }` -/
def kwName (kw : List Char) : List Char :=
  if (kw.splitOn ':').length > 1 then (kw.splitOn ':').getD 1 []
  else (kw.splitOn ':').getD 0 []

def allowedKeywords : List (List Char) :=
  ["asctime".toList, "filename".toList, "function".toList,
   "lineno".toList, "levelno".toList]

/-- The keyword switch of `setHeaderFormat`; the default branch is
`fmt.Errorf("unknown keyword [%s]", kw)`. -/
def kwSession (kw : List Char) : Except (List Char) Session :=
  if keywordOf kw = "asctime".toList then .ok (.asctime (kwName kw))
  else if keywordOf kw = "filename".toList then .ok (.filename (kwName kw))
  else if keywordOf kw = "function".toList then .ok (.function (kwName kw))
  else if keywordOf kw = "lineno".toList then .ok (.lineno (kwName kw))
  else if keywordOf kw = "levelno".toList then .ok (.levelno (kwName kw))
  else .error ("unknown keyword [".toList ++ kw ++ "]".toList)

def buildSessions : List Tok → Except (List Char) (List Session)
  | [] => .ok []
  | Tok.lit s :: rest => do
    let ss ← buildSessions rest
    return Session.copy s :: ss
  | Tok.ph kw :: rest => do
    let s ← kwSession kw
    let ss ← buildSessions rest
    return s :: ss

def setHeaderFormat (fmtStr : List Char) : Except (List Char) (List Session) :=
  buildSessions (tokenize fmtStr)

deriving instance DecidableEq for Except

/-! ### Event context and caller resolution (log.go `logItem`, `initCaller`) -/

structure LogItem where
  level : Int
  filename : List Char := []
  function : List Char := []
  line : Int := 0
  calldepth : Int

deriving instance DecidableEq for LogItem

/-- What `runtime.Caller(calldepth+1)` / `runtime.FuncForPC` return for the
current event; `rawFunc = none` models a nil `*runtime.Func`. -/
structure CallerEnv where
  ok : Bool
  rawFile : List Char
  rawFunc : Option (List Char)
  line : Int

structure RenderEnv where
  timeStr : List Char
  caller : CallerEnv
  tags : List (List Char)

/-- `strings.LastIndexByte(s, c)`; keep the suffix after the last occurrence
(or the whole string when absent). -/
def afterLast (c : Char) (s : List Char) : List Char :=
  (s.reverse.takeWhile (fun x => x != c)).reverse

/-- `strings.IndexByte(s, c)`; keep the suffix after the first occurrence
(or the whole string when absent). -/
def afterFirst (c : Char) (s : List Char) : List Char :=
  if s.dropWhile (fun x => x != c) = [] then s
  else (s.dropWhile (fun x => x != c)).tail

def initCaller (env : CallerEnv) (it : LogItem) : LogItem :=
  if env.ok then
    let fn := match env.rawFunc with
      | some nm => nm
      | none => "???".toList
    { it with
      filename := afterLast '/' env.rawFile,
      function := afterFirst '.' (afterLast '/' fn),
      line := env.line }
  else
    { it with
      filename := afterLast '/' "???".toList,
      function := afterFirst '.' (afterLast '/' it.function),
      line := 0 }

/-- One `genHeader` closure application (or a literal copy): appends to the
buffer and possibly mutates the shared event item. -/
def runSession (env : RenderEnv) (s : Session) (buf : List Char) (it : LogItem) :
    List Char × LogItem :=
  match s with
  | .copy str => (buf ++ str, it)
  | .asctime _ => (buf ++ env.timeStr, it)
  | .filename _ =>
    let it := if it.filename = [] then initCaller env.caller it else it
    (buf ++ it.filename, it)
  | .function _ =>
    let it := if it.function = [] then initCaller env.caller it else it
    (buf ++ it.function, it)
  | .lineno _ =>
    let it := if it.line < 0 then initCaller env.caller it else it
    (buf ++ (toString it.line).toList, it)
  | .levelno _ => (buf ++ tagAt env.tags it.level, it)

def renderHeader (env : RenderEnv) (sessions : List Session) (it : LogItem) :
    List Char × LogItem :=
  sessions.foldl (fun acc s => runSession env s acc.1 acc.2) ([], it)

/-! ### Logger dispatch core (log.go `Logger`, `write`, `output`, `Output`) -/

structure Logger where
  level : Int
  async : Bool
  outs : List Nat
  headerSessions : List Session

deriving instance DecidableEq for Logger

structure WriteCall where
  sink : Nat
  msg : List Char
  level : Int

deriving instance DecidableEq for WriteCall

/-- Observable effect of one `Logger.write` call: the synchronous per-sink
`Write` invocations, or the item enqueued on `chOut` in async mode. -/
structure WriteEffect where
  syncCalls : List WriteCall
  enqueued : Option (List Char × Int)

deriving instance DecidableEq for WriteEffect

def noEffect : WriteEffect := { syncCalls := [], enqueued := none }

/-- A synchronous logger with the given threshold, sinks and compiled
header (the state NewLogger builds in sync mode). -/
def syncLogger (thr : Int) (outs : List Nat) (ss : List Session) : Logger :=
  { level := thr, async := false, outs := outs, headerSessions := ss }

def Logger.write (l : Logger) (msg : List Char) (level : Int) : WriteEffect :=
  if l.async then { syncCalls := [], enqueued := some (msg, level) }
  else
    { syncCalls := l.outs.map fun w => { sink := w, msg := msg, level := level },
      enqueued := none }

/-- log.go `Logger.output`: render the header, append the message, ensure a
trailing newline. -/
def outputBuf (env : RenderEnv) (sessions : List Session)
    (level calldepth : Int) (s : List Char) : List Char :=
  let it : LogItem := { level := level, calldepth := calldepth }
  let buf := (renderHeader env sessions it).1 ++ s
  if s = [] ∨ s.getLast? ≠ some '\n' then buf ++ ['\n'] else buf

def Logger.outputEff (l : Logger) (env : RenderEnv)
    (level calldepth : Int) (s : List Char) : WriteEffect :=
  l.write (outputBuf env l.headerSessions level calldepth s) level

/-- log.go `Logger.Output` / `Logger.Outputf` (the rendered message string is
taken as a parameter; both gate identically on `level >= l.level` and pass
`calldepth+1` down). -/
def Logger.Output (l : Logger) (env : RenderEnv)
    (level calldepth : Int) (s : List Char) : WriteEffect :=
  if level ≥ l.level then l.outputEff env level (calldepth + 1) s else noEffect

/-! ### Constructor (log.go `NewLogger`) -/

structure NewLoggerResult where
  logger : Option Logger
  err : Option (List Char)
  /-- whether `AddOutput(out)` was invoked on the supplied sink -/
  sinkTouched : Bool

deriving instance DecidableEq for NewLoggerResult

def newLogger (out : Nat) (level : Int) (fmtStr : List Char) (async : Bool) :
    NewLoggerResult :=
  match setHeaderFormat fmtStr with
  | .error e => { logger := none, err := some e, sinkTouched := false }
  | .ok ss =>
    { logger := some { level := level, async := async, outs := [out],
                       headerSessions := ss },
      err := none, sinkTouched := true }

/-! ### Shared concrete environment for witnesses -/

def envW : RenderEnv :=
  { timeStr := "T".toList,
    caller := { ok := true, rawFile := "a/b.go".toList,
                rawFunc := some ("golog.Func".toList), line := 42 },
    tags := defaultLevels }

/-! ### Claim C1 -/

/-- Claim C1: for a synchronous Logger with threshold `L2`, calling
Output/Outputf at a level `L1 < L2` produces no sink writes; calling at any
level `L ≥ L2` produces exactly one Write call per registered sink, carrying
the rendered bytes and the level. -/
theorem c1_sync_level_gate (env : RenderEnv) (outs : List Nat)
    (ss : List Session) (L1 L2 cd : Int) (s : List Char) (h : L1 < L2) :
    (Logger.Output (syncLogger L2 outs ss) env L1 cd s).syncCalls = [] ∧
    ∀ L : Int, L2 ≤ L →
      (Logger.Output (syncLogger L2 outs ss) env L cd s).syncCalls =
        outs.map (fun w =>
          { sink := w, msg := outputBuf env ss L (cd + 1) s, level := L }) := by
  constructor
  · have hne : ¬ (L1 ≥ L2) := not_le.mpr h
    simp [Logger.Output, syncLogger, hne, noEffect]
  · intro L hL
    have hge : L ≥ L2 := hL
    simp [Logger.Output, syncLogger, hge, Logger.outputEff, Logger.write]

/-- Witness for C1 at a concrete instance. -/
theorem c1_sync_level_gate_witness :
    (Logger.Output (syncLogger 2 [7] []) envW 0 2 ['m']).syncCalls = [] ∧
    (Logger.Output (syncLogger 2 [7] []) envW 3 2 ['m']).syncCalls =
      [7].map (fun w =>
        { sink := w, msg := outputBuf envW [] 3 3 ['m'], level := 3 }) :=
  ⟨(c1_sync_level_gate envW [7] [] 0 2 2 ['m'] (by decide)).1,
   (c1_sync_level_gate envW [7] [] 0 2 2 ['m'] (by decide)).2 3 (by decide)⟩

/-! ### Claim C9 -/

def hasPh (toks : List Tok) : Bool :=
  toks.any fun t => match t with | .ph _ => true | _ => false

theorem tokenize_no_ph (fmt : List Char) (h : hasPh (tokenize fmt) = false) :
    tokenize fmt = if fmt = [] then [] else [Tok.lit fmt] := by
  cases hf : findPh fmt with
  | none =>
    unfold tokenize
    simp [tokenizeFuel, hf]
  | some pkr =>
    obtain ⟨pre, kw, rest⟩ := pkr
    exfalso
    unfold tokenize at h
    simp only [tokenizeFuel, hf, hasPh] at h
    split at h <;> simp at h

theorem outputBuf_literal (env : RenderEnv) (fmt s : List Char)
    (L cd : Int) :
    outputBuf env [Session.copy fmt] L cd s =
      fmt ++ s ++ (if s = [] ∨ s.getLast? ≠ some '\n' then ['\n'] else []) := by
  simp only [outputBuf, renderHeader, List.foldl_cons, List.foldl_nil,
    runSession, List.nil_append]
  split <;> simp

theorem outputBuf_nilSessions (env : RenderEnv) (s : List Char) (L cd : Int) :
    outputBuf env [] L cd s =
      s ++ (if s = [] ∨ s.getLast? ≠ some '\n' then ['\n'] else []) := by
  simp only [outputBuf, renderHeader, List.foldl_nil, List.nil_append]
  split <;> simp

/-- Claim C9: a format string with no placeholders compiles to (at most) a
single literal session, and every emitted message is delivered to each sink
as exactly that literal followed by the message, with a line terminator
appended exactly when the message is empty or does not already end in a
newline. -/
theorem c9_literal_roundtrip (env : RenderEnv) (fmt s : List Char)
    (outs : List Nat) (thr L cd : Int)
    (hph : hasPh (tokenize fmt) = false) (hadm : thr ≤ L) :
    setHeaderFormat fmt =
      .ok (if fmt = [] then [] else [Session.copy fmt]) ∧
    (Logger.Output
        (syncLogger thr outs (if fmt = [] then [] else [Session.copy fmt]))
        env L cd s).syncCalls =
      outs.map (fun w =>
        { sink := w,
          msg := fmt ++ s ++
            (if s = [] ∨ s.getLast? ≠ some '\n' then ['\n'] else []),
          level := L }) := by
  have htok := tokenize_no_ph fmt hph
  have hge : L ≥ thr := hadm
  by_cases hfmt : fmt = []
  · subst hfmt
    refine ⟨by simp [setHeaderFormat, htok, buildSessions], ?_⟩
    simp [Logger.Output, syncLogger, hge, Logger.outputEff, Logger.write,
      outputBuf_nilSessions]
  · rw [if_neg hfmt] at htok ⊢
    refine ⟨by simp [setHeaderFormat, htok, hfmt, buildSessions], ?_⟩
    simp [Logger.Output, syncLogger, hge, Logger.outputEff, Logger.write,
      outputBuf_literal]

/-- Witness for C9 at a concrete instance. -/
theorem c9_literal_roundtrip_witness :
    setHeaderFormat ("hdr ".toList) =
      .ok (if ("hdr ".toList : List Char) = [] then []
           else [Session.copy ("hdr ".toList)]) ∧
    (Logger.Output
        (syncLogger 1 [4] (if ("hdr ".toList : List Char) = [] then []
          else [Session.copy ("hdr ".toList)]))
        envW 1 2 ("msg".toList)).syncCalls =
      [4].map (fun w =>
        { sink := w,
          msg := "hdr ".toList ++ "msg".toList ++
            (if ("msg".toList : List Char) = [] ∨
                ("msg".toList : List Char).getLast? ≠ some '\n'
             then ['\n'] else []),
          level := 1 }) :=
  c9_literal_roundtrip envW ("hdr ".toList) ("msg".toList) [4] 1 1 2
    (by decide) (by decide)

/-! ### Claim C2 -/

def isBadPh (t : Tok) : Bool :=
  match t with
  | .ph kw => decide (keywordOf kw ∉ allowedKeywords)
  | _ => false

/-- First placeholder whose keyword the switch rejects, if any. -/
def firstBadPh : List Tok → Option (List Char)
  | [] => none
  | Tok.lit _ :: rest => firstBadPh rest
  | Tok.ph kw :: rest =>
    if keywordOf kw ∉ allowedKeywords then some kw else firstBadPh rest

/-- The hypothesis form of C2 is equivalent to "some placeholder's keyword
is unrecognized": whenever such a placeholder exists, `firstBadPh` finds
one. -/
theorem firstBadPh_isSome_of_any (toks : List Tok)
    (h : toks.any isBadPh = true) : ∃ kw, firstBadPh toks = some kw := by
  induction toks with
  | nil => simp at h
  | cons t rest ih =>
    cases t with
    | lit str =>
      rw [List.any_cons] at h
      simp only [isBadPh, Bool.false_or] at h
      obtain ⟨kw, hkw⟩ := ih h
      exact ⟨kw, by simpa [firstBadPh] using hkw⟩
    | ph kw0 =>
      by_cases hb : keywordOf kw0 ∉ allowedKeywords
      · exact ⟨kw0, by simp [firstBadPh, hb]⟩
      · rw [List.any_cons] at h
        simp only [isBadPh, decide_eq_true_eq] at h
        rcases Bool.or_eq_true_iff.mp h with hL | hR
        · exact absurd (of_decide_eq_true hL) hb
        · obtain ⟨kw, hkw⟩ := ih hR
          exact ⟨kw, by simp [firstBadPh, hb, hkw]⟩

theorem firstBadPh_bad (toks : List Tok) (kw : List Char)
    (h : firstBadPh toks = some kw) : keywordOf kw ∉ allowedKeywords := by
  induction toks with
  | nil => simp [firstBadPh] at h
  | cons t rest ih =>
    cases t with
    | lit str => exact ih (by simpa [firstBadPh] using h)
    | ph kw0 =>
      rw [firstBadPh] at h
      by_cases hb : keywordOf kw0 ∉ allowedKeywords
      · rw [if_pos hb] at h
        cases h
        exact hb
      · rw [if_neg hb] at h
        exact ih h

theorem kwSession_error_of_bad (kw : List Char)
    (h : keywordOf kw ∉ allowedKeywords) :
    kwSession kw = .error ("unknown keyword [".toList ++ kw ++ "]".toList) := by
  simp only [allowedKeywords, List.mem_cons, List.not_mem_nil, or_false,
    not_or] at h
  obtain ⟨h1, h2, h3, h4, h5⟩ := h
  unfold kwSession
  rw [if_neg h1, if_neg h2, if_neg h3, if_neg h4, if_neg h5]

theorem kwSession_ok_of_good (kw : List Char)
    (h : keywordOf kw ∈ allowedKeywords) : ∃ s, kwSession kw = .ok s := by
  simp only [allowedKeywords, List.mem_cons, List.not_mem_nil, or_false] at h
  unfold kwSession
  rcases h with h | h | h | h | h
  · exact ⟨Session.asctime (kwName kw), by rw [if_pos h]⟩
  · exact ⟨Session.filename (kwName kw),
      by rw [if_neg (by rw [h]; decide), if_pos h]⟩
  · exact ⟨Session.function (kwName kw),
      by rw [if_neg (by rw [h]; decide), if_neg (by rw [h]; decide),
        if_pos h]⟩
  · exact ⟨Session.lineno (kwName kw),
      by rw [if_neg (by rw [h]; decide), if_neg (by rw [h]; decide),
        if_neg (by rw [h]; decide), if_pos h]⟩
  · exact ⟨Session.levelno (kwName kw),
      by rw [if_neg (by rw [h]; decide), if_neg (by rw [h]; decide),
        if_neg (by rw [h]; decide), if_neg (by rw [h]; decide), if_pos h]⟩

theorem buildSessions_error_of_firstBad (toks : List Tok) (kw : List Char)
    (h : firstBadPh toks = some kw) :
    buildSessions toks =
      .error ("unknown keyword [".toList ++ kw ++ "]".toList) := by
  induction toks with
  | nil => simp [firstBadPh] at h
  | cons t rest ih =>
    cases t with
    | lit str =>
      rw [firstBadPh] at h
      simp [buildSessions, ih h]
    | ph kw0 =>
      rw [firstBadPh] at h
      by_cases hb : keywordOf kw0 ∉ allowedKeywords
      · rw [if_pos hb] at h
        cases h
        simp only [buildSessions, kwSession_error_of_bad kw hb]
        rfl
      · rw [if_neg hb] at h
        push_neg at hb
        obtain ⟨s, hs⟩ := kwSession_ok_of_good kw0 hb
        simp only [buildSessions, hs, ih h]
        rfl

/-- Claim C2: a format string containing a placeholder with an unrecognized
keyword makes `NewLogger` fail with an error naming that keyword, return no
Logger, and never touch the supplied sink (`AddOutput` is not called). -/
theorem c2_unknown_keyword (out : Nat) (level : Int) (async : Bool)
    (fmt kw : List Char) (h : firstBadPh (tokenize fmt) = some kw) :
    keywordOf kw ∉ allowedKeywords ∧
    setHeaderFormat fmt =
      .error ("unknown keyword [".toList ++ kw ++ "]".toList) ∧
    newLogger out level fmt async =
      { logger := none,
        err := some ("unknown keyword [".toList ++ kw ++ "]".toList),
        sinkTouched := false } := by
  have herr := buildSessions_error_of_firstBad _ _ h
  refine ⟨firstBadPh_bad _ _ h, herr, ?_⟩
  simp [newLogger, setHeaderFormat, herr]

/-- Witness for C2 at a concrete instance. -/
theorem c2_unknown_keyword_witness :
    keywordOf ("bogus:alias".toList) ∉ allowedKeywords ∧
    setHeaderFormat ("x %(bogus:alias) y".toList) =
      .error ("unknown keyword [".toList ++ "bogus:alias".toList ++
        "]".toList) ∧
    newLogger 5 1 ("x %(bogus:alias) y".toList) false =
      { logger := none,
        err := some ("unknown keyword [".toList ++ "bogus:alias".toList ++
          "]".toList),
        sinkTouched := false } :=
  c2_unknown_keyword 5 1 false ("x %(bogus:alias) y".toList)
    ("bogus:alias".toList) (by decide)

/-! ### Claim C6 — async per-sink backpressure (log.go `outputRoutine`) -/

/-- The drop test `outputRoutine` applies to each dequeued item:
`len(out.chIn) > OutputBuffer*3/5 && item.level <= LevelDebug ||
 len(out.chIn) > OutputBuffer*4/5 && item.level <= LevelInfo`
(`qlen` is the queue length observed after the item was received). -/
def dropInOutputRoutine (qlen : Nat) (level : Int) : Bool :=
  (decide (qlen > OutputBuffer * 3 / 5) && decide (level ≤ LevelDebug)) ||
  (decide (qlen > OutputBuffer * 4 / 5) && decide (level ≤ LevelInfo))

/-- One `outputRoutine` iteration on a dequeued item: `none` when the item is
skipped (`continue`), otherwise the Write call made to the sink. -/
def outputRoutineStep (qlen : Nat) (msg : List Char) (level : Int) :
    Option (List Char × Int) :=
  if dropInOutputRoutine qlen level then none else some (msg, level)

/-- The spec wording of the drop policy: more than 60% / 80% of capacity. -/
def dropSpec (qlen : Nat) (level : Int) : Prop :=
  (qlen > OutputBuffer * 60 / 100 ∧ level ≤ LevelDebug) ∨
  (qlen > OutputBuffer * 80 / 100 ∧ level ≤ LevelInfo)

/-- Claim C6: a message passing through a per-sink queue is dropped exactly
when the queue is more than 60% full and the level is Debug or below, or
more than 80% full and the level is Info or below; Warn and above are never
dropped. -/
theorem c6_backpressure (qlen : Nat) (msg : List Char) (level : Int) :
    (outputRoutineStep qlen msg level = none ↔ dropSpec qlen level) ∧
    (LevelWarn ≤ level →
      outputRoutineStep qlen msg level = some (msg, level)) := by
  have h60 : OutputBuffer * 3 / 5 = OutputBuffer * 60 / 100 := by decide
  have h80 : OutputBuffer * 4 / 5 = OutputBuffer * 80 / 100 := by decide
  have hiff : dropInOutputRoutine qlen level = true ↔ dropSpec qlen level := by
    rw [dropSpec, ← h60, ← h80]
    simp [dropInOutputRoutine]
  constructor
  · by_cases hd : dropInOutputRoutine qlen level = true
    · simp [outputRoutineStep, hd, hiff.mp hd]
    · have hns : ¬ dropSpec qlen level := fun hs => hd (hiff.mpr hs)
      simp [outputRoutineStep, hd, hns]
  · intro hw
    rw [LevelWarn] at hw
    have h1 : ¬ (level ≤ LevelDebug) := by rw [LevelDebug]; omega
    have h2 : ¬ (level ≤ LevelInfo) := by rw [LevelInfo]; omega
    simp [outputRoutineStep, dropInOutputRoutine, h1, h2]

/-- Witness for C6: a Critical message survives a 90%-full queue. -/
theorem c6_backpressure_witness :
    LevelWarn ≤ (4 : Int) ∧ outputRoutineStep 9000 ['x'] 4 = some (['x'], 4) :=
  ⟨by decide, (c6_backpressure 9000 ['x'] 4).2 (by decide)⟩

/-! ### Claim C7 — lineno session never resolves the caller

The `lineno` closure guards its lazy `initCaller` call with `item.line < 0`,
but a fresh `logItem` has `line == 0` (and `initCaller` itself never stores a
negative line), so the guard can never fire; unless a `filename`/`function`
session ran earlier in the same event, `%(lineno)` renders `0`. -/

def envC7 : RenderEnv :=
  { timeStr := "T".toList,
    caller := { ok := true, rawFile := "dir/file.go".toList,
                rawFunc := some ("golog.TestFn".toList), line := 42 },
    tags := defaultLevels }

/-- Claim C7 (code-bug demonstration): for format `"%(lineno) "` and a caller
whose actual line is 42, the rendered header shows `0`, not 42 — the lazy
resolution the claim describes never happens when no filename/function
session precedes the lineno session. -/
theorem c7_lineno_renders_zero :
    setHeaderFormat ("%(lineno) ".toList) =
      .ok [Session.lineno ("lineno".toList), Session.copy [' ']] ∧
    envC7.caller.line = 42 ∧
    outputBuf envC7 [Session.lineno ("lineno".toList), Session.copy [' ']]
      LevelInfo (NormalDepth + 1) ("msg".toList) = "0 msg\n".toList := by
  decide

/-! ### Claim C8 — redirect add/cancel round trip (log.go `AddRedirect`,
`CancelRedirect`)

The stream slot `**os.File` is modelled as a mutable cell holding a file
descriptor; `openPipes` tracks pipe write ends not yet closed. -/

structure StreamState where
  slot : Nat
  openPipes : List Nat

deriving instance DecidableEq for StreamState

structure Redirector where
  tag : List Char
  old : Nat
  pipe : Nat

deriving instance DecidableEq for Redirector

/-- `AddRedirect`: on pipe success, swap the slot to the fresh pipe write end
`pw` and remember the previous value; on pipe failure return nil and leave
the slot alone. -/
def addRedirect (st : StreamState) (pipeOk : Bool) (pw : Nat)
    (tag : List Char) : StreamState × Option Redirector :=
  if pipeOk then
    ({ slot := pw, openPipes := st.openPipes ++ [pw] },
     some { tag := tag, old := st.slot, pipe := pw })
  else (st, none)

/-- `CancelRedirect`: `r.pipe.Close()` then `*r.oldAddr = r.old`. -/
def cancelRedirect (st : StreamState) (r : Redirector) : StreamState :=
  { slot := r.old, openPipes := st.openPipes.erase r.pipe }

/-- Claim C8: for every slot state and Redirector returned by AddRedirect,
CancelRedirect closes the pipe write end and restores the slot to the value
it held immediately before the AddRedirect call. -/
theorem c8_redirect_roundtrip (st : StreamState) (pw : Nat) (tag : List Char)
    (hfresh : pw ∉ st.openPipes) :
    (addRedirect st true pw tag).1.slot = pw ∧
    ∀ r, (addRedirect st true pw tag).2 = some r →
      (cancelRedirect (addRedirect st true pw tag).1 r).slot = st.slot ∧
      (cancelRedirect (addRedirect st true pw tag).1 r).openPipes =
        st.openPipes ∧
      r.pipe ∉ (cancelRedirect (addRedirect st true pw tag).1 r).openPipes := by
  refine ⟨rfl, ?_⟩
  intro r hr
  have hr2 : r = { tag := tag, old := st.slot, pipe := pw } := by
    simpa [addRedirect] using hr.symm
  subst hr2
  have herase : (st.openPipes ++ [pw]).erase pw = st.openPipes := by
    rw [List.erase_append_right _ hfresh, List.erase_cons_head,
      List.append_nil]
  exact ⟨rfl, by simp [cancelRedirect, addRedirect, herase],
    by simp [cancelRedirect, addRedirect, herase]; exact hfresh⟩

/-- Witness for C8 at a concrete instance. -/
theorem c8_redirect_roundtrip_witness :
    (addRedirect { slot := 3, openPipes := [] } true 9 ['t']).1.slot = 9 ∧
    (cancelRedirect (addRedirect { slot := 3, openPipes := [] } true 9 ['t']).1
      { tag := ['t'], old := 3, pipe := 9 }).slot = 3 :=
  ⟨(c8_redirect_roundtrip { slot := 3, openPipes := [] } 9 ['t']
      (by decide)).1,
   ((c8_redirect_roundtrip { slot := 3, openPipes := [] } 9 ['t']
      (by decide)).2 { tag := ['t'], old := 3, pipe := 9 } (by decide)).1⟩

/-! ### Claim C10 — CriticalJson emits at LevelDebug (log.go `OutputJson`,
`CriticalJson`) -/

abbrev JsonMap := List (List Char × List Char)

/-- Go map assignment `items[k] = v` on the assoc-list model. -/
def setField : JsonMap → List Char → List Char → JsonMap
  | [], k, v => [(k, v)]
  | (k0, v0) :: rest, k, v =>
    if k0 = k then (k0, v) :: rest else (k0, v0) :: setField rest k v

def Session.isCopy : Session → Bool
  | .copy _ => true
  | _ => false

def Session.sName : Session → List Char
  | .copy _ => []
  | .asctime n => n
  | .filename n => n
  | .function n => n
  | .lineno n => n
  | .levelno n => n

/-- The `for index, s := range l.headerSessions` loop of `OutputJson`: each
non-copy session renders into a fresh buffer and is stored under its field
name; the event item is threaded through (same lazy-caller mutation as the
text path). -/
def jsonFold (env : RenderEnv) :
    List Session → JsonMap → LogItem → JsonMap × LogItem
  | [], m, it => (m, it)
  | s :: rest, m, it =>
    if s.isCopy then jsonFold env rest m it
    else
      let r := runSession env s [] it
      jsonFold env rest (setField m s.sName r.1) r.2

/-- The `index == 0` special case: a leading literal session is copied to
the front of the output buffer. -/
def jsonHeadLit : List Session → List Char
  | Session.copy str :: _ => str
  | _ => []

def Logger.OutputJson (l : Logger) (env : RenderEnv)
    (marshal : JsonMap → Option (List Char)) (level calldepth : Int)
    (items : JsonMap) : WriteEffect :=
  if level < l.level then noEffect
  else
    match marshal (jsonFold env l.headerSessions items
        { level := level, calldepth := calldepth }).1 with
    | none => noEffect
    | some bufJson =>
      l.write (jsonHeadLit l.headerSessions ++ bufJson ++ ['\n']) level

def Logger.DebugJson (l : Logger) (env : RenderEnv)
    (marshal : JsonMap → Option (List Char)) (items : JsonMap) : WriteEffect :=
  l.OutputJson env marshal LevelDebug (NormalDepth + 1) items

/-- log.go lines 544-546: `CriticalJson` forwards `LevelDebug`, not
`LevelCritical`. -/
def Logger.CriticalJson (l : Logger) (env : RenderEnv)
    (marshal : JsonMap → Option (List Char)) (items : JsonMap) : WriteEffect :=
  l.OutputJson env marshal LevelDebug (NormalDepth + 1) items

theorem initCaller_preserves_level (env : CallerEnv) (it : LogItem) :
    (initCaller env it).level = it.level := by
  unfold initCaller
  split_ifs <;> rfl

theorem runSession_preserves_level (env : RenderEnv) (s : Session)
    (buf : List Char) (it : LogItem) :
    (runSession env s buf it).2.level = it.level := by
  cases s with
  | copy str => rfl
  | asctime n => rfl
  | filename n =>
    simp only [runSession]
    split_ifs with h
    · simp [initCaller_preserves_level]
    · rfl
  | function n =>
    simp only [runSession]
    split_ifs with h
    · simp [initCaller_preserves_level]
    · rfl
  | lineno n =>
    simp only [runSession]
    split_ifs with h
    · simp [initCaller_preserves_level]
    · rfl
  | levelno n => rfl

theorem jsonFold_preserves_level (env : RenderEnv) (ss : List Session)
    (m : JsonMap) (it : LogItem) :
    (jsonFold env ss m it).2.level = it.level := by
  induction ss generalizing m it with
  | nil => rfl
  | cons s rest ih =>
    simp only [jsonFold]
    split_ifs
    · exact ih m it
    · rw [ih]
      exact runSession_preserves_level env s [] it

theorem jsonFold_append (env : RenderEnv) (ss1 ss2 : List Session)
    (m : JsonMap) (it : LogItem) :
    jsonFold env (ss1 ++ ss2) m it =
      jsonFold env ss2 (jsonFold env ss1 m it).1 (jsonFold env ss1 m it).2 := by
  induction ss1 generalizing m it with
  | nil => rfl
  | cons s rest ih =>
    simp only [List.cons_append, jsonFold]
    split_ifs
    · exact ih m it
    · exact ih _ _

/-- Claim C10: `CriticalJson(items)` emits the structured record at
LevelDebug rather than LevelCritical: it is literally `DebugJson`; every
sink write it makes carries LevelDebug; the record is admitted only when the
threshold is LevelDebug (among the five built-in levels); and a `levelno`
header field stores the Debug tag `"D"` (with the default tag table). -/
theorem c10_criticalJson_is_debugJson (l : Logger) (env : RenderEnv)
    (marshal : JsonMap → Option (List Char)) (items : JsonMap) :
    l.CriticalJson env marshal items = l.DebugJson env marshal items ∧
    (∀ wc ∈ (l.CriticalJson env marshal items).syncCalls,
      wc.level = LevelDebug) ∧
    (l.level ∈ ([LevelDebug, LevelInfo, LevelWarn, LevelError,
        LevelCritical] : List Int) →
      l.CriticalJson env marshal items ≠ noEffect → l.level = LevelDebug) ∧
    (∀ ss n m it, env.tags = defaultLevels → it.level = LevelDebug →
      jsonFold env (ss ++ [Session.levelno n]) m it =
        (setField (jsonFold env ss m it).1 n ['D'],
         (jsonFold env ss m it).2)) := by
  refine ⟨rfl, ?_, ?_, ?_⟩
  · intro wc hwc
    unfold Logger.CriticalJson Logger.OutputJson at hwc
    split_ifs at hwc with h
    · simp [noEffect] at hwc
    · rcases hm : marshal (jsonFold env l.headerSessions items
          { level := LevelDebug, calldepth := NormalDepth + 1 }).1 with
        _ | bufJson
      all_goals rw [hm] at hwc
      · simp [noEffect] at hwc
      · unfold Logger.write at hwc
        split_ifs at hwc with ha
        · simp at hwc
        · obtain ⟨w, hw, rfl⟩ := List.mem_map.mp hwc
          rfl
  · intro hmem hne
    by_cases h : LevelDebug < l.level
    · exfalso
      apply hne
      unfold Logger.CriticalJson Logger.OutputJson
      rw [if_pos h]
    · simp only [List.mem_cons, List.not_mem_nil, or_false] at hmem
      rcases hmem with hv | hv | hv | hv | hv
      · exact hv.trans rfl
      all_goals exact absurd (by decide) (hv ▸ h)
  · intro ss n m it htags hl
    rw [jsonFold_append]
    simp only [jsonFold, Session.isCopy, Session.sName, runSession,
      List.nil_append]
    rw [jsonFold_preserves_level, hl, htags]
    simp [tagAt, defaultLevels, LevelDebug]

def marshalW : JsonMap → Option (List Char) := fun _ => some ['J']

/-- Witness for C10 at a concrete instance. -/
theorem c10_criticalJson_witness :
    (syncLogger 0 [3] [Session.levelno ("lv".toList)]).level = LevelDebug ∧
    jsonFold envW ([] ++ [Session.levelno ("lv".toList)]) []
        { level := LevelDebug, calldepth := 3 } =
      (setField (jsonFold envW [] []
          { level := LevelDebug, calldepth := 3 }).1 ("lv".toList) ['D'],
       (jsonFold envW [] [] { level := LevelDebug, calldepth := 3 }).2) :=
  ⟨(c10_criticalJson_is_debugJson
      (syncLogger 0 [3] [Session.levelno ("lv".toList)]) envW marshalW
      []).2.2.1 (by decide) (by decide),
   (c10_criticalJson_is_debugJson
      (syncLogger 0 [3] [Session.levelno ("lv".toList)]) envW marshalW
      []).2.2.2 [] ("lv".toList) [] { level := LevelDebug, calldepth := 3 }
      (by decide) (by decide)⟩

/-! ### RotateWriter (file.go) — claims C3 and C4

The file system is modelled explicitly: `files` maps inode ids to contents
and modification time, `names` maps paths to inode ids (so a rename moves a
binding, exactly like `os.Rename`), `diag` counts messages printed to the
diagnostic stream (`fmt.Fprintf(os.Stderr, ...)`).  Wall-clock values carry
their `time.Format` renderings as opaque fields.  `IOFaults` injects
rename/open failures for one call. -/

inductive RotateMode where
  | RNone
  | ByHour
  | ByDay
  | BySize

deriving instance DecidableEq for RotateMode

structure GTime where
  day : Int
  hour : Int
  fmtDay : List Char
  fmtHour : List Char
  fmtSize : List Char

deriving instance DecidableEq for GTime

structure FileRec where
  contents : List Nat
  mtime : GTime

deriving instance DecidableEq for FileRec

structure FS where
  files : List (Nat × FileRec)
  names : List (List Char × Nat)
  nextId : Nat
  diag : Nat

deriving instance DecidableEq for FS

/-- file.go `RotateWriter` (the open `*os.File` is an inode id; `rotations`
is an observer counting completed rotation transactions, i.e. successful
`doRotate` calls). -/
structure RW where
  file : List Char
  rotateMode : RotateMode
  rotateSize : Int
  writedSize : Int
  suffix : List Char
  rotateFlag : Int
  fp : Option Nat
  rotations : Nat

deriving instance DecidableEq for RW

structure IOFaults where
  renameFail : Bool
  openFail : Bool

deriving instance DecidableEq for IOFaults

def noFaults : IOFaults := { renameFail := false, openFail := false }

def lookupKey {α β : Type} [DecidableEq α] : List (α × β) → α → Option β
  | [], _ => none
  | (k0, v) :: rest, k => if k0 = k then some v else lookupKey rest k

def upsert {α β : Type} [DecidableEq α] : List (α × β) → α → β → List (α × β)
  | [], k, v => [(k, v)]
  | (k0, v0) :: rest, k, v =>
    if k0 = k then (k, v) :: rest else (k0, v0) :: upsert rest k v

def dropKey {α β : Type} [DecidableEq α] (m : List (α × β)) (k : α) :
    List (α × β) :=
  m.filter fun p => decide (p.1 ≠ k)

/-- `os.Stat(w.file)` (the model has no directories). -/
def statFile (fs : FS) (path : List Char) : Option FileRec :=
  (lookupKey fs.names path).bind fun fid => lookupKey fs.files fid

/-- `os.OpenFile(path, O_CREATE|O_APPEND|O_WRONLY, 0666)`: reuse the bound
inode, or create an empty one. -/
def openAppend (fs : FS) (path : List Char) (t : GTime) : FS × Nat :=
  match lookupKey fs.names path with
  | some fid => (fs, fid)
  | none =>
    let fid := fs.nextId
    ({ fs with
       files := upsert fs.files fid { contents := [], mtime := t },
       names := upsert fs.names path fid,
       nextId := fs.nextId + 1 }, fid)

/-- file.go `doRotate`: rename the live file to `file + "." + w.suffix` when
`w.suffix` is nonempty and the live file exists, then open (or create) a
fresh live file; on rename failure return the error untouched, on open
failure print to stderr and return the error; only on success replace the
handle and store the `suffix` parameter. -/
def doRotate (w : RW) (fs : FS) (suffix : List Char) (t : GTime)
    (flt : IOFaults) : RW × FS × Bool :=
  let needRename := !w.suffix.isEmpty && (statFile fs w.file).isSome
  if needRename && flt.renameFail then (w, fs, false)
  else
    let fs1 :=
      if needRename then
        match lookupKey fs.names w.file with
        | some fid =>
          { fs with
            names := upsert (dropKey fs.names w.file)
              (w.file ++ '.' :: w.suffix) fid }
        | none => fs
      else fs
    if flt.openFail then (w, { fs1 with diag := fs1.diag + 1 }, false)
    else
      let p := openAppend fs1 w.file t
      let w1 := { w with
        fp := some p.2,
        suffix := suffix,
        rotations := w.rotations + 1 }
      (w1, p.1, true)

/-- file.go `rotate`: the first-write recovery from a pre-existing file,
then the per-mode due test.  Note that for `BySize` the byte counter is
reset and `w.suffix` overwritten with the rotation moment's timestamp
*before* `doRotate` is attempted. -/
def rotateStep (w0 : RW) (fs : FS) (t : GTime) (flt : IOFaults) :
    RW × FS × Bool :=
  let w :=
    if w0.fp = none then
      match statFile fs w0.file with
      | some info =>
        if w0.rotateMode = RotateMode.ByDay ∧ info.mtime.day ≠ t.day then
          { w0 with suffix := info.mtime.fmtDay }
        else if w0.rotateMode = RotateMode.ByHour ∧
            info.mtime.hour ≠ t.hour then
          { w0 with suffix := info.mtime.fmtHour }
        else if w0.rotateMode = RotateMode.BySize then
          { w0 with writedSize := (info.contents.length : Int) }
        else w0
      | none => w0
    else w0
  if w.rotateMode = RotateMode.ByDay ∧ w.rotateFlag ≠ t.day then
    doRotate { w with rotateFlag := t.day } fs t.fmtDay t flt
  else if w.rotateMode = RotateMode.ByHour ∧ w.rotateFlag ≠ t.hour then
    doRotate { w with rotateFlag := t.hour } fs t.fmtHour t flt
  else if w.rotateMode = RotateMode.BySize ∧ w.writedSize > w.rotateSize then
    doRotate { w with writedSize := 0, suffix := t.fmtSize } fs [] t flt
  else if w0.fp = none then
    doRotate w fs [] t flt
  else (w, fs, true)

/-- file.go `RotateWriter.Write`: rotate first; on rotation error report to
stderr and drop the message; otherwise append the payload through the open
handle and bump the byte counter. -/
def rwWrite (w : RW) (fs : FS) (msg : List Nat) (t : GTime)
    (flt : IOFaults) : RW × FS :=
  match rotateStep w fs t flt with
  | (w1, fs1, ok) =>
    if ok then
      match w1.fp with
      | some fid =>
        let fs2 :=
          match lookupKey fs1.files fid with
          | some rec =>
            { fs1 with
              files := upsert fs1.files fid
                { contents := rec.contents ++ msg, mtime := t } }
          | none => fs1
        ({ w1 with writedSize := w1.writedSize + (msg.length : Int) }, fs2)
      | none =>
        ({ w1 with writedSize := w1.writedSize + (msg.length : Int) }, fs1)
    else (w1, { fs1 with diag := fs1.diag + 1 })

def defaultRotateSize : Int := 100 * 1000 * 1000

/-- file.go `NewRotateWriter` + the initial `rotate()`; nil on failure. -/
def newRotateWriter (file : List Char) (mode : RotateMode) (fs : FS)
    (t : GTime) : Option (RW × FS) :=
  let w : RW := { file := file, rotateMode := mode,
                  rotateSize := defaultRotateSize, writedSize := 0,
                  suffix := [], rotateFlag := -1, fp := none,
                  rotations := 0 }
  match rotateStep w fs t noFaults with
  | (w1, fs1, true) => some (w1, fs1)
  | (_, _, false) => none

/-- file.go `SetRotateSize`. -/
def setRotateSize (w : RW) (size : Int) : RW := { w with rotateSize := size }

def emptyFS : FS := { files := [], names := [], nextId := 0, diag := 0 }

/-- Fresh BySize writer on an empty file system with threshold 100
(`NewRotateWriter` + `SetRotateSize(100)`, the claim's scenario). -/
def bySizeStart (t1 : GTime) : Option (RW × FS) :=
  match newRotateWriter ("log".toList) RotateMode.BySize emptyFS t1 with
  | none => none
  | some (w, fs) => some (setRotateSize w 100, fs)

/-- Run a sequence of Write calls (payload, wall clock, injected faults). -/
def runWrites : Option (RW × FS) → List (List Nat × GTime × IOFaults) →
    Option (RW × FS)
  | none, _ => none
  | some (w, fs), [] => some (w, fs)
  | some (w, fs), (msg, t, flt) :: rest =>
    runWrites (some (rwWrite w fs msg t flt)) rest

/-- Writer state right after `bySizeStart` succeeds. -/
def W0 : RW :=
  { file := "log".toList, rotateMode := RotateMode.BySize, rotateSize := 100,
    writedSize := 0, suffix := [], rotateFlag := -1, fp := some 0,
    rotations := 1 }

/-- File system right after `bySizeStart` succeeds. -/
def FS0 (t1 : GTime) : FS :=
  { files := [(0, { contents := [], mtime := t1 })],
    names := [("log".toList, 0)], nextId := 1, diag := 0 }

theorem bySizeStart_eval (t1 : GTime) : bySizeStart t1 = some (W0, FS0 t1) :=
  rfl

theorem runWrites_cons (w : RW) (fs : FS) (msg : List Nat) (t : GTime)
    (flt : IOFaults) (rest : List (List Nat × GTime × IOFaults)) :
    runWrites (some (w, fs)) ((msg, t, flt) :: rest) =
      runWrites (some (rwWrite w fs msg t flt)) rest := rfl

theorem runWrites_nil (w : RW) (fs : FS) :
    runWrites (some (w, fs)) [] = some (w, fs) := rfl

theorem lookupKey_upsert_self {α β : Type} [DecidableEq α]
    (m : List (α × β)) (k : α) (v : β) :
    lookupKey (upsert m k v) k = some v := by
  induction m with
  | nil => simp [upsert, lookupKey]
  | cons p rest ih =>
    obtain ⟨k0, v0⟩ := p
    by_cases h : k0 = k
    · subst h
      simp [upsert, lookupKey]
    · simp [upsert, lookupKey, h, ih]

theorem lookupKey_upsert_ne {α β : Type} [DecidableEq α]
    (m : List (α × β)) (k k2 : α) (v : β) (h : ¬ k2 = k) :
    lookupKey (upsert m k2 v) k = lookupKey m k := by
  induction m with
  | nil => simp [upsert, lookupKey, h]
  | cons p rest ih =>
    obtain ⟨k0, v0⟩ := p
    by_cases h0 : k0 = k2
    · subst h0
      simp [upsert, lookupKey, h]
    · simp [upsert, lookupKey, h0, ih]

theorem lookupKey_dropKey_self {α β : Type} [DecidableEq α]
    (m : List (α × β)) (k : α) :
    lookupKey (dropKey m k) k = none := by
  induction m with
  | nil => simp [dropKey, lookupKey]
  | cons p rest ih =>
    obtain ⟨k0, v0⟩ := p
    by_cases h : k0 = k
    · subst h
      simpa [dropKey, lookupKey] using ih
    · simpa [dropKey, lookupKey, h] using ih

/-- A BySize write that is not yet due just appends through the handle. -/
theorem rwWrite_notDue (w : RW) (fs : FS) (msg : List Nat) (t : GTime)
    (flt : IOFaults) (fid : Nat) (rec : FileRec)
    (hmode : w.rotateMode = RotateMode.BySize)
    (hfp : w.fp = some fid)
    (hnd : ¬ w.writedSize > w.rotateSize)
    (hrec : lookupKey fs.files fid = some rec) :
    rwWrite w fs msg t flt =
      ({ w with writedSize := w.writedSize + (msg.length : Int) },
       { fs with
         files := upsert fs.files fid
           { contents := rec.contents ++ msg, mtime := t } }) := by
  have hfpn : ¬ (w.fp = none) := by simp [hfp]
  unfold rwWrite rotateStep
  simp [hmode, hfp, hfpn, hnd, hrec]

/-- The archive name `file + "." + suffix` never collides with the live
file name. -/
theorem archName_ne (file suffix : List Char) :
    ¬ (file ++ '.' :: suffix = file) := by
  intro h
  have hl := congrArg List.length h
  simp [List.length_append] at hl

/-- A due BySize rotation with no injected faults: rename the live file to
`file + "." + t.fmtSize`, open a fresh live file, then append the payload
to it. -/
theorem rwWrite_bySize_due_ok (w : RW) (fs : FS) (msg : List Nat) (t : GTime)
    (fid : Nat) (rec : FileRec)
    (hmode : w.rotateMode = RotateMode.BySize)
    (hfp : ¬ (w.fp = none))
    (hdue : w.writedSize > w.rotateSize)
    (hfmt : ¬ (t.fmtSize = []))
    (hlive : lookupKey fs.names w.file = some fid)
    (hrec : lookupKey fs.files fid = some rec) :
    rwWrite w fs msg t noFaults =
      ({ w with
         writedSize := (msg.length : Int),
         suffix := [],
         fp := some fs.nextId,
         rotations := w.rotations + 1 },
       { fs with
         files := upsert (upsert fs.files fs.nextId
             { contents := [], mtime := t })
           fs.nextId { contents := msg, mtime := t },
         names := upsert (upsert (dropKey fs.names w.file)
             (w.file ++ '.' :: t.fmtSize) fid) w.file fs.nextId,
         nextId := fs.nextId + 1 }) := by
  have hemp : t.fmtSize.isEmpty = false := by
    cases hfs : t.fmtSize with
    | nil => exact absurd hfs hfmt
    | cons c cs => rfl
  have hstat : statFile fs w.file = some rec := by
    simp [statFile, hlive, hrec]
  have harch := archName_ne w.file t.fmtSize
  have hopen : lookupKey (upsert (dropKey fs.names w.file)
      (w.file ++ '.' :: t.fmtSize) fid) w.file = none := by
    rw [lookupKey_upsert_ne _ _ _ _ harch, lookupKey_dropKey_self]
  unfold rwWrite rotateStep doRotate openAppend
  simp [hmode, hfp, hdue, hemp, hstat, hlive, hopen, noFaults,
    lookupKey_upsert_self]

/-- A due BySize rotation whose rename fails: the error is reported, the
payload is dropped, the handle is retained — but the byte counter was
already reset (and `w.suffix` overwritten) before the attempt. -/
theorem rwWrite_bySize_renameFail (w : RW) (fs : FS) (msg : List Nat)
    (t : GTime) (fid : Nat) (rec : FileRec)
    (hmode : w.rotateMode = RotateMode.BySize)
    (hfp : ¬ (w.fp = none))
    (hdue : w.writedSize > w.rotateSize)
    (hfmt : ¬ (t.fmtSize = []))
    (hlive : lookupKey fs.names w.file = some fid)
    (hrec : lookupKey fs.files fid = some rec) :
    rwWrite w fs msg t { renameFail := true, openFail := false } =
      ({ w with writedSize := 0, suffix := t.fmtSize },
       { fs with diag := fs.diag + 1 }) := by
  have hemp : t.fmtSize.isEmpty = false := by
    cases hfs : t.fmtSize with
    | nil => exact absurd hfs hfmt
    | cons c cs => rfl
  have hstat : statFile fs w.file = some rec := by
    simp [statFile, hlive, hrec]
  unfold rwWrite rotateStep doRotate
  simp [hmode, hfp, hdue, hemp, hstat]

/-- A due BySize rotation whose open fails: the rename has ALREADY happened
(the live path is rebound to the archive name), then the open error is
reported by `doRotate` and again by `Write`, the payload is dropped, and
the writer keeps its previous handle — which now refers to the renamed
file. -/
theorem rwWrite_bySize_openFail (w : RW) (fs : FS) (msg : List Nat)
    (t : GTime) (fid : Nat) (rec : FileRec)
    (hmode : w.rotateMode = RotateMode.BySize)
    (hfp : ¬ (w.fp = none))
    (hdue : w.writedSize > w.rotateSize)
    (hfmt : ¬ (t.fmtSize = []))
    (hlive : lookupKey fs.names w.file = some fid)
    (hrec : lookupKey fs.files fid = some rec) :
    rwWrite w fs msg t { renameFail := false, openFail := true } =
      ({ w with writedSize := 0, suffix := t.fmtSize },
       { fs with
         names := upsert (dropKey fs.names w.file)
           (w.file ++ '.' :: t.fmtSize) fid,
         diag := fs.diag + 1 + 1 }) := by
  have hemp : t.fmtSize.isEmpty = false := by
    cases hfs : t.fmtSize with
    | nil => exact absurd hfs hfmt
    | cons c cs => rfl
  have hstat : statFile fs w.file = some rec := by
    simp [statFile, hlive, hrec]
  unfold rwWrite rotateStep doRotate
  simp [hmode, hfp, hdue, hemp, hstat, hlive]

/-! Concrete wall-clock values for counterexamples. -/

def tA : GTime :=
  { day := 1, hour := 1, fmtDay := "dA".toList, fmtHour := "hA".toList,
    fmtSize := "sA".toList }

def tB : GTime :=
  { day := 1, hour := 2, fmtDay := "dB".toList, fmtHour := "hB".toList,
    fmtSize := "sB".toList }

def tC : GTime :=
  { day := 1, hour := 3, fmtDay := "dC".toList, fmtHour := "hC".toList,
    fmtSize := "sC".toList }

def tD : GTime :=
  { day := 1, hour := 4, fmtDay := "dD".toList, fmtHour := "hD".toList,
    fmtSize := "sD".toList }

/-! ### Claim C3 -/

/-- Counterexample to claim C3 as stated: threshold 100, no pre-existing
file, two writes of 60 and 41 bytes (total 101).  No rotation happens
between the two calls — `rotations` stays at 1 (the constructor's initial
open), no archive file exists (`names` still has a single entry), and all
101 bytes sit in the live file.  Rotation only triggers once the bytes
already written before a call exceed the threshold. -/
theorem c3_counterexample :
    (runWrites (bySizeStart tA)
      [(List.replicate 60 0, tB, noFaults),
       (List.replicate 41 1, tC, noFaults)]).map
      (fun p => (p.1.rotations, p.2.names.length,
        (statFile p.2 ("log".toList)).map fun r => r.contents.length)) =
      some (1, 1, some 101) := by
  decide

/-- Claim C3 amended: with threshold 100 and no pre-existing file, a
rotation happens between two writes exactly when the FIRST payload alone
exceeds 100 bytes: the first write performs no rotation (`rotations` stays
at 1, counting the constructor's initial open), the second write performs
exactly one rotation (rename + reopen, `rotations` becomes 2), and the
archived file `log.<t3.fmtSize>` contains exactly the bytes written before
the rotation — the whole first payload. -/
theorem c3_amended (a b : List Nat) (t1 t2 t3 : GTime)
    (ha : 100 < a.length) (hf : ¬ (t3.fmtSize = [])) :
    (runWrites (bySizeStart t1) [(a, t2, noFaults)]).map
      (fun p => p.1.rotations) = some 1 ∧
    (runWrites (bySizeStart t1) [(a, t2, noFaults), (b, t3, noFaults)]).map
      (fun p => (p.1.rotations,
        statFile p.2 ("log".toList ++ '.' :: t3.fmtSize),
        statFile p.2 ("log".toList))) =
      some (2, some { contents := a, mtime := t2 },
        some { contents := b, mtime := t3 }) := by
  have h1 : rwWrite W0 (FS0 t1) a t2 noFaults =
      ({ W0 with writedSize := (a.length : Int) },
       { FS0 t1 with files := [(0, { contents := a, mtime := t2 })] }) := by
    rw [rwWrite_notDue W0 (FS0 t1) a t2 noFaults 0
      { contents := [], mtime := t1 } rfl rfl (by decide) rfl]
    simp [W0, FS0, upsert]
  have hdue : ({ W0 with writedSize := (a.length : Int) } : RW).writedSize >
      ({ W0 with writedSize := (a.length : Int) } : RW).rotateSize := by
    simp only [W0]
    omega
  have harch := archName_ne ("log".toList) t3.fmtSize
  have h2 : rwWrite { W0 with writedSize := (a.length : Int) }
      { FS0 t1 with files := [(0, { contents := a, mtime := t2 })] }
      b t3 noFaults =
      ({ W0 with
         writedSize := (b.length : Int), fp := some 1, rotations := 2 },
       { files := [(0, { contents := a, mtime := t2 }),
                   (1, { contents := b, mtime := t3 })],
         names := [("log".toList ++ '.' :: t3.fmtSize, 0),
                   ("log".toList, 1)],
         nextId := 2, diag := 0 }) := by
    rw [rwWrite_bySize_due_ok
      { W0 with writedSize := (a.length : Int) }
      { FS0 t1 with files := [(0, { contents := a, mtime := t2 })] }
      b t3 0 { contents := a, mtime := t2 }
      rfl (by simp [W0]) hdue hf rfl rfl]
    simp [W0, FS0, upsert, dropKey, lookupKey, harch]
  constructor
  · rw [bySizeStart_eval, runWrites_cons, h1, runWrites_nil]
    simp [W0]
  · rw [bySizeStart_eval, runWrites_cons, h1, runWrites_cons, h2,
      runWrites_nil]
    simp [W0, statFile, lookupKey, harch]

/-- Witness for the amended C3 at a concrete instance. -/
theorem c3_amended_witness :
    (runWrites (bySizeStart tA) [(List.replicate 101 0, tB, noFaults)]).map
      (fun p => p.1.rotations) = some 1 ∧
    (runWrites (bySizeStart tA)
      [(List.replicate 101 0, tB, noFaults), ([5], tC, noFaults)]).map
      (fun p => (p.1.rotations,
        statFile p.2 ("log".toList ++ '.' :: tC.fmtSize),
        statFile p.2 ("log".toList))) =
      some (2, some { contents := List.replicate 101 0, mtime := tB },
        some { contents := [5], mtime := tC }) :=
  c3_amended (List.replicate 101 0) [5] tA tB tC (by decide) (by decide)

/-! ### Claim C4 -/

/-- Counterexample to claim C4 as stated: after a write whose due rotation
fails at the rename (error reported, `diag` becomes 1, message dropped), the
NEXT write does not find the rotation due again: `rotations` stays at 1 (the
constructor's open), no archive is ever created (`names` still has one
entry), and the next payload is appended to the old live file
(101 + 1 bytes).  The claim's "retried on the next Write call" is false —
the size counter was reset before the failed attempt. -/
theorem c4_counterexample :
    (runWrites (bySizeStart tA)
      [(List.replicate 101 0, tB, noFaults),
       ([7], tC, { renameFail := true, openFail := false }),
       ([8], tD, noFaults)]).map
      (fun p => (p.1.rotations, p.2.diag, p.2.names.length,
        (statFile p.2 ("log".toList)).map fun r => r.contents.length)) =
      some (1, 1, 1, some 102) := by
  decide

/-- Claim C4 amended: when the rename or the open of a due rotation fails,
the message is dropped after reporting the error to the diagnostic stream
and the writer keeps its previous open handle — but the rotation is NOT
retried on the next Write: the byte counter was reset (and `w.suffix`
overwritten) before the failed attempt, so the next Write finds nothing due
and appends through the old handle without rotating.  On a rename failure
(conjuncts 1-2) nothing was renamed, so the old handle still reaches the
live file.  On an open failure (conjuncts 3-4) the rename has already
happened, so the retained handle refers to the renamed (archived) file: the
live path is left unbound, two diagnostics are emitted (`doRotate`'s open
error plus `Write`'s rotate error), and the next payload lands in the
archive file. -/
theorem c4_amended (a b c : List Nat) (t1 t2 t3 t4 : GTime)
    (ha : 100 < a.length) (hf : ¬ (t3.fmtSize = [])) :
    (runWrites (bySizeStart t1)
      [(a, t2, noFaults),
       (b, t3, { renameFail := true, openFail := false })]).map
      (fun p => (p.1.rotations, p.1.fp, p.1.writedSize, p.2.diag,
        (statFile p.2 ("log".toList)).map fun r => r.contents)) =
      some (1, some 0, 0, 1, some a) ∧
    (runWrites (bySizeStart t1)
      [(a, t2, noFaults),
       (b, t3, { renameFail := true, openFail := false }),
       (c, t4, noFaults)]).map
      (fun p => (p.1.rotations, p.2.diag,
        (statFile p.2 ("log".toList)).map fun r => r.contents)) =
      some (1, 1, some (a ++ c)) ∧
    (runWrites (bySizeStart t1)
      [(a, t2, noFaults),
       (b, t3, { renameFail := false, openFail := true })]).map
      (fun p => (p.1.rotations, p.1.fp, p.1.writedSize, p.2.diag,
        lookupKey p.2.names ("log".toList),
        lookupKey p.2.names ("log".toList ++ '.' :: t3.fmtSize),
        (lookupKey p.2.files 0).map fun r => r.contents)) =
      some (1, some 0, 0, 2, none, some 0, some a) ∧
    (runWrites (bySizeStart t1)
      [(a, t2, noFaults),
       (b, t3, { renameFail := false, openFail := true }),
       (c, t4, noFaults)]).map
      (fun p => (p.1.rotations, p.2.diag, statFile p.2 ("log".toList),
        (statFile p.2 ("log".toList ++ '.' :: t3.fmtSize)).map
          fun r => r.contents)) =
      some (1, 2, none, some (a ++ c)) := by
  have h1 : rwWrite W0 (FS0 t1) a t2 noFaults =
      ({ W0 with writedSize := (a.length : Int) },
       { FS0 t1 with files := [(0, { contents := a, mtime := t2 })] }) := by
    rw [rwWrite_notDue W0 (FS0 t1) a t2 noFaults 0
      { contents := [], mtime := t1 } rfl rfl (by decide) rfl]
    simp [W0, FS0, upsert]
  have hdue : ({ W0 with writedSize := (a.length : Int) } : RW).writedSize >
      ({ W0 with writedSize := (a.length : Int) } : RW).rotateSize := by
    simp only [W0]
    omega
  have h2 : rwWrite { W0 with writedSize := (a.length : Int) }
      { FS0 t1 with files := [(0, { contents := a, mtime := t2 })] }
      b t3 { renameFail := true, openFail := false } =
      ({ W0 with writedSize := 0, suffix := t3.fmtSize },
       { FS0 t1 with
         files := [(0, { contents := a, mtime := t2 })],
         diag := 1 }) := by
    rw [rwWrite_bySize_renameFail
      { W0 with writedSize := (a.length : Int) }
      { FS0 t1 with files := [(0, { contents := a, mtime := t2 })] }
      b t3 0 { contents := a, mtime := t2 }
      rfl (by simp [W0]) hdue hf rfl rfl]
    simp [W0, FS0]
  have h3 : rwWrite { W0 with writedSize := 0, suffix := t3.fmtSize }
      { FS0 t1 with
        files := [(0, { contents := a, mtime := t2 })],
        diag := 1 } c t4 noFaults =
      ({ W0 with writedSize := (c.length : Int), suffix := t3.fmtSize },
       { FS0 t1 with
         files := [(0, { contents := a ++ c, mtime := t4 })],
         diag := 1 }) := by
    rw [rwWrite_notDue
      { W0 with writedSize := 0, suffix := t3.fmtSize }
      { FS0 t1 with
        files := [(0, { contents := a, mtime := t2 })],
        diag := 1 }
      c t4 noFaults 0 { contents := a, mtime := t2 }
      rfl rfl (by norm_num [W0]) rfl]
    simp [W0, FS0, upsert]
  have harch := archName_ne ("log".toList) t3.fmtSize
  have h2o : rwWrite { W0 with writedSize := (a.length : Int) }
      { FS0 t1 with files := [(0, { contents := a, mtime := t2 })] }
      b t3 { renameFail := false, openFail := true } =
      ({ W0 with writedSize := 0, suffix := t3.fmtSize },
       { files := [(0, { contents := a, mtime := t2 })],
         names := [("log".toList ++ '.' :: t3.fmtSize, 0)],
         nextId := 1, diag := 2 }) := by
    rw [rwWrite_bySize_openFail
      { W0 with writedSize := (a.length : Int) }
      { FS0 t1 with files := [(0, { contents := a, mtime := t2 })] }
      b t3 0 { contents := a, mtime := t2 }
      rfl (by simp [W0]) hdue hf rfl rfl]
    simp [W0, FS0, upsert, dropKey]
  have h3o : rwWrite { W0 with writedSize := 0, suffix := t3.fmtSize }
      { files := [(0, { contents := a, mtime := t2 })],
        names := [("log".toList ++ '.' :: t3.fmtSize, 0)],
        nextId := 1, diag := 2 } c t4 noFaults =
      ({ W0 with writedSize := (c.length : Int), suffix := t3.fmtSize },
       { files := [(0, { contents := a ++ c, mtime := t4 })],
         names := [("log".toList ++ '.' :: t3.fmtSize, 0)],
         nextId := 1, diag := 2 }) := by
    rw [rwWrite_notDue
      { W0 with writedSize := 0, suffix := t3.fmtSize }
      { files := [(0, { contents := a, mtime := t2 })],
        names := [("log".toList ++ '.' :: t3.fmtSize, 0)],
        nextId := 1, diag := 2 }
      c t4 noFaults 0 { contents := a, mtime := t2 }
      rfl rfl (by norm_num [W0]) rfl]
    simp [W0, upsert]
  refine ⟨?_, ?_, ?_, ?_⟩
  · rw [bySizeStart_eval, runWrites_cons, h1, runWrites_cons, h2,
      runWrites_nil]
    simp [W0, FS0, statFile, lookupKey]
  · rw [bySizeStart_eval, runWrites_cons, h1, runWrites_cons, h2,
      runWrites_cons, h3, runWrites_nil]
    simp [W0, FS0, statFile, lookupKey]
  · rw [bySizeStart_eval, runWrites_cons, h1, runWrites_cons, h2o,
      runWrites_nil]
    simp [W0, FS0, lookupKey, harch]
  · rw [bySizeStart_eval, runWrites_cons, h1, runWrites_cons, h2o,
      runWrites_cons, h3o, runWrites_nil]
    simp [W0, FS0, statFile, lookupKey, harch]

/-- Witness for the amended C4 at a concrete instance: one rename-failure
run and one open-failure run. -/
theorem c4_amended_witness :
    (runWrites (bySizeStart tA)
      [(List.replicate 101 0, tB, noFaults),
       ([7], tC, { renameFail := true, openFail := false })]).map
      (fun p => (p.1.rotations, p.1.fp, p.1.writedSize, p.2.diag,
        (statFile p.2 ("log".toList)).map fun r => r.contents)) =
      some (1, some 0, 0, 1, some (List.replicate 101 0)) ∧
    (runWrites (bySizeStart tA)
      [(List.replicate 101 0, tB, noFaults),
       ([7], tC, { renameFail := false, openFail := true }),
       ([9], tD, noFaults)]).map
      (fun p => (p.1.rotations, p.2.diag, statFile p.2 ("log".toList),
        (statFile p.2 ("log".toList ++ '.' :: tC.fmtSize)).map
          fun r => r.contents)) =
      some (1, 2, none, some (List.replicate 101 0 ++ [9])) :=
  ⟨(c4_amended (List.replicate 101 0) [7] [9] tA tB tC tD (by decide)
      (by decide)).1,
   (c4_amended (List.replicate 101 0) [7] [9] tA tB tC tD (by decide)
      (by decide)).2.2.2⟩

/-! ### Claim C5 — RemoveOutput (log.go `removeOutput`, synchronous mode)

log.go iterates `for i, v := range l.outs` over a snapshot of the slice
header taken before the loop, while splicing
`l.outs = append(l.outs[:i], l.outs[i+1:]...)` in place on the shared
backing array.  The model follows Go slice semantics: `arr` is the backing
array (its length stays the original `n`; reads never go past it), `len` is
the current slice length.  Splicing at `i` with `i + 1 ≤ len` shifts
`arr[i+1 .. len-1]` left by one and shrinks `len`; a matching element seen
at `i` with `i + 1 > len` makes the slice expression `l.outs[i+1:]` go out
of range (low above the slice length), a Go runtime error — modelled as
`none`.  Sinks are compared by reference identity, modelled as `Nat`; in
sync mode an `outWriter` is just its sink (`chIn` is nil). -/

def shiftLeft (arr : List Nat) (i len : Nat) : List Nat :=
  arr.take i ++ (arr.drop (i + 1)).take (len - 1 - i) ++ arr.drop (len - 1)

def removeLoopGo (w : Nat) : Nat → Nat → List Nat → Nat →
    Option (List Nat × Nat)
  | 0, _, arr, len => some (arr, len)
  | r + 1, i, arr, len =>
    if arr.getD i 0 = w then
      if i + 1 ≤ len then
        removeLoopGo w r (i + 1) (shiftLeft arr i len) (len - 1)
      else none
    else removeLoopGo w r (i + 1) arr len

def removeOutputGo (outs : List Nat) (w : Nat) : Option (List Nat) :=
  (removeLoopGo w outs.length 0 outs outs.length).map fun p => p.1.take p.2

/-- Removal policy the spec states: drop exactly the first identity match
(kept separate from the source translation for comparison). -/
def removeFirst : List Nat → Nat → List Nat
  | [], _ => []
  | x :: xs, w => if x = w then xs else x :: removeFirst xs w

theorem getD_ne_of_not_mem (L : List Nat) (w : Nat) (hw : w ∉ L)
    (j : Nat) (hj : j < L.length) : ¬ (L.getD j 0 = w) := by
  intro hEq
  apply hw
  rw [← hEq, List.getD_eq_getElem L 0 hj]
  exact List.getElem_mem hj

theorem removeLoopGo_noMatch (w : Nat) :
    ∀ (r i : Nat) (arr : List Nat) (len : Nat),
      (∀ j, j < r → ¬ (arr.getD (i + j) 0 = w)) →
      removeLoopGo w r i arr len = some (arr, len) := by
  intro r
  induction r with
  | zero => intro i arr len h; rfl
  | succ r ih =>
    intro i arr len h
    have h0 : ¬ (arr.getD i 0 = w) := by simpa using h 0 (Nat.succ_pos r)
    rw [removeLoopGo, if_neg h0]
    refine ih (i + 1) arr len (fun j hj => ?_)
    have hx := h (j + 1) (by omega)
    rw [show i + (j + 1) = i + 1 + j from by omega] at hx
    exact hx

theorem removeLoopGo_skip (w : Nat) :
    ∀ (m r i : Nat) (arr : List Nat) (len : Nat),
      (∀ j, j < m → ¬ (arr.getD (i + j) 0 = w)) →
      removeLoopGo w (m + r) i arr len = removeLoopGo w r (i + m) arr len := by
  intro m
  induction m with
  | zero => intro r i arr len h; simp
  | succ m ih =>
    intro r i arr len h
    have h0 : ¬ (arr.getD i 0 = w) := by simpa using h 0 (by omega)
    have hrec := ih r (i + 1) arr len (fun j hj => by
      have hx := h (j + 1) (by omega)
      rw [show i + (j + 1) = i + 1 + j from by omega] at hx
      exact hx)
    rw [show m + 1 + r = (m + r) + 1 from by omega, removeLoopGo, if_neg h0,
      hrec, show i + 1 + m = i + (m + 1) from by omega]

theorem shiftLeft_split (outs1 outs2 : List Nat) (w : Nat) :
    shiftLeft (outs1 ++ w :: outs2) outs1.length
        (outs1.length + (outs2.length + 1)) =
      (outs1 ++ outs2) ++ List.drop outs2.length (w :: outs2) := by
  unfold shiftLeft
  have e1 : List.take outs1.length (outs1 ++ w :: outs2) = outs1 :=
    List.take_left _ _
  have e2 : List.drop (outs1.length + 1) (outs1 ++ w :: outs2) = outs2 := by
    rw [show outs1 ++ w :: outs2 = (outs1 ++ [w]) ++ outs2 from by simp]
    exact List.drop_left' (by simp)
  have e3 : outs1.length + (outs2.length + 1) - 1 - outs1.length =
      outs2.length := by omega
  have e4 : outs1.length + (outs2.length + 1) - 1 =
      outs1.length + outs2.length := by omega
  have e5 : List.drop (outs1.length + outs2.length) (outs1 ++ w :: outs2) =
      List.drop outs2.length (w :: outs2) := by
    rw [← List.drop_drop, List.drop_left]
  rw [e1, e2, e3, e4, e5, List.take_length, List.append_assoc]

theorem removeFirst_split (outs1 outs2 : List Nat) (w : Nat)
    (h1 : w ∉ outs1) :
    removeFirst (outs1 ++ w :: outs2) w = outs1 ++ outs2 := by
  induction outs1 with
  | nil => simp [removeFirst]
  | cons x xs ih =>
    have hx : ¬ (x = w) := fun hEq => h1 (by simp [hEq])
    simp only [List.cons_append, removeFirst, if_neg hx, List.append_eq]
    rw [ih (fun hm => h1 (List.mem_cons_of_mem x hm))]

/-- Claim C5 amended: when at most one registered sink is identical to `w`
(`outs1 ++ w :: outs2` with no other match, or no match at all), the loop
removes exactly that first match and agrees with the spec's remove-first
policy.  (With several matching sinks it does not — see the
counterexample — and the function returns no found/not-found report.) -/
theorem c5_amended (outs1 outs2 : List Nat) (w : Nat)
    (h1 : w ∉ outs1) (h2 : w ∉ outs2) :
    removeOutputGo (outs1 ++ w :: outs2) w = some (outs1 ++ outs2) ∧
    removeFirst (outs1 ++ w :: outs2) w = outs1 ++ outs2 ∧
    removeOutputGo (outs1 ++ outs2) w = some (outs1 ++ outs2) := by
  have hw12 : w ∉ outs1 ++ outs2 := by
    simp only [List.mem_append]
    rintro (h | h)
    · exact h1 h
    · exact h2 h
  refine ⟨?_, ?_, ?_⟩
  · -- the loop on a single-match list
    have g1 : ∀ j, j < outs1.length →
        ¬ ((outs1 ++ w :: outs2).getD (0 + j) 0 = w) := by
      intro j hj
      rw [Nat.zero_add, List.getD_eq_getElem?_getD, List.getElem?_append,
        if_pos hj, ← List.getD_eq_getElem?_getD]
      exact getD_ne_of_not_mem outs1 w h1 j hj
    have g2 : (outs1 ++ w :: outs2).getD outs1.length 0 = w := by
      rw [List.getD_eq_getElem?_getD,
        List.getElem?_append_right (le_refl _), Nat.sub_self]
      simp
    have g3 : ∀ j, j < outs2.length →
        ¬ (((outs1 ++ outs2) ++
            List.drop outs2.length (w :: outs2)).getD
            (outs1.length + 1 + j) 0 = w) := by
      intro j hj
      rcases Nat.lt_or_ge (outs1.length + 1 + j)
          (outs1.length + outs2.length) with hlt | hge
      · have hlen : outs1.length + 1 + j < (outs1 ++ outs2).length := by
          rw [List.length_append]
          omega
        rw [List.getD_eq_getElem?_getD, List.getElem?_append, if_pos hlen,
          ← List.getD_eq_getElem?_getD]
        exact getD_ne_of_not_mem (outs1 ++ outs2) w hw12 _ hlen
      · have hp : outs1.length + 1 + j = outs1.length + outs2.length := by
          omega
        obtain ⟨m, hm⟩ : ∃ m, outs2.length = m + 1 :=
          ⟨outs2.length - 1, by omega⟩
        have hm2 : m < outs2.length := by omega
        rw [hp, List.getD_eq_getElem?_getD,
          List.getElem?_append_right (by rw [List.length_append])]
        rw [show outs1.length + outs2.length - (outs1 ++ outs2).length = 0
          from by rw [List.length_append]; omega]
        rw [List.getElem?_drop]
        rw [show outs2.length + 0 = m + 1 from by omega,
          List.getElem?_cons_succ, ← List.getD_eq_getElem?_getD]
        exact getD_ne_of_not_mem outs2 w h2 m hm2
    unfold removeOutputGo
    rw [show (outs1 ++ w :: outs2).length =
        outs1.length + (outs2.length + 1) from by
      rw [List.length_append, List.length_cons]]
    rw [removeLoopGo_skip w outs1.length (outs2.length + 1) 0 _ _ g1,
      Nat.zero_add]
    rw [removeLoopGo, if_pos g2, if_pos (by omega)]
    rw [shiftLeft_split]
    rw [show outs1.length + (outs2.length + 1) - 1 =
        outs1.length + outs2.length from by omega]
    rw [removeLoopGo_noMatch w outs2.length (outs1.length + 1) _ _ g3]
    have htake : List.take (outs1.length + outs2.length)
        ((outs1 ++ outs2) ++ List.drop outs2.length (w :: outs2)) =
        outs1 ++ outs2 := List.take_left' (by rw [List.length_append])
    exact congrArg some htake
  · exact removeFirst_split outs1 outs2 w h1
  · -- the loop when no sink matches
    unfold removeOutputGo
    rw [removeLoopGo_noMatch w (outs1 ++ outs2).length 0 _ _
      (fun j hj => by
        rw [Nat.zero_add]
        exact getD_ne_of_not_mem _ w hw12 j hj)]
    simp

/-- Counterexample to claim C5 as stated: removing `w = 0` from the
registered list `[0, 0, 0, 1]` yields `[0, 1]` — the loop removes TWO
matching sinks, not just the first (`removeFirst` would give `[0, 0, 1]`);
and on `[0, 0]` the spliced iteration trips the out-of-range slice
expression (`none` = runtime error).  `removeOutput` also returns nothing,
so no found/not-found report exists. -/
theorem c5_counterexample :
    removeOutputGo [0, 0, 0, 1] 0 = some [0, 1] ∧
    removeFirst [0, 0, 0, 1] 0 = [0, 0, 1] ∧
    removeOutputGo [0, 0] 0 = none := by decide

/-- Witness for the amended C5 at a concrete instance. -/
theorem c5_amended_witness :
    removeOutputGo [4, 0, 5] 0 = some [4, 5] ∧
    removeFirst [4, 0, 5] 0 = [4, 5] ∧
    removeOutputGo [4, 5] 0 = some [4, 5] :=
  c5_amended [4] [5] 0 (by decide) (by decide)

end Golog
